import Mathlib

/-!
Verification of `src/GIMP3.0/ham-quick-guides.py` (`run_quick_guides`).

The plugin's arithmetic runs in Python, where `image_width / v_split` is
IEEE-754 binary64 true division (CPython computes the correctly rounded
quotient of the two integers) and `q * (i + 1)` is a correctly rounded
binary64 product.  We model a binary64 value by the exact rational it
denotes, and each operation by rounding the exact rational result to 53
significant bits with round-to-nearest, ties-to-even.  Overflow and
subnormals are not modelled: every quantity the plugin computes lies far
inside the normal range (image dimensions are host-side 32-bit integers,
split counts lie in [1,100]).
-/

/-- `pow2 e` is the exact rational `2 ^ e` for an integer exponent `e`,
written with `Nat` powers so that it evaluates by kernel reduction. -/
def pow2 (e : ℤ) : ℚ :=
  if 0 ≤ e then ((2 ^ e.toNat : ℕ) : ℚ) else ((2 ^ (-e).toNat : ℕ) : ℚ)⁻¹

/-- Round a rational to the nearest integer, ties to even
(the IEEE-754 default rounding direction, used by CPython). -/
def rnde (t : ℚ) : ℤ :=
  if t - ⌊t⌋ < 1/2 then ⌊t⌋
  else if 1/2 < t - ⌊t⌋ then ⌊t⌋ + 1
  else if ⌊t⌋ % 2 = 0 then ⌊t⌋ else ⌊t⌋ + 1

/-- Round a positive rational to 53 significant bits
(round to nearest, ties to even): the binary64 value nearest `x`. -/
def fl64Pos (x : ℚ) : ℚ :=
  ((rnde (x * pow2 (52 - Int.log 2 x)) : ℤ) : ℚ) * pow2 (Int.log 2 x - 52)

/-- The binary64 value nearest a rational `x` (normal range; no
overflow/subnormal handling, which the plugin's inputs never reach). -/
def fl64 (x : ℚ) : ℚ :=
  if x < 0 then -fl64Pos (-x) else if x = 0 then 0 else fl64Pos x

/-- Python float division `a / b`: the correctly rounded binary64
quotient (CPython's `long_true_divide` / `float_div`). -/
def floatDiv (a b : ℚ) : ℚ := fl64 (a / b)

/-- Python float multiplication: the correctly rounded binary64 product. -/
def floatMul (a b : ℚ) : ℚ := fl64 (a * b)

/-- Python `int(x)` on a float: truncation toward zero. -/
def pyInt (x : ℚ) : ℤ := if x < 0 then -⌊-x⌋ else ⌊x⌋

/-- The guide position the plugin computes for step `i` of a split loop:
`int((dim / n) * (i + 1))` evaluated in binary64, from
`guide_pos = int((image_width / v_split) * (i + 1))`. -/
def guide_pos (dim : ℕ) (n : ℤ) (i : ℕ) : ℤ :=
  pyInt (floatMul (floatDiv (dim : ℚ) (n : ℚ)) ((i : ℚ) + 1))

/-- The list of split-guide positions one `if v_split > 1: for i in
range(v_split - 1): ...` loop produces over a dimension `dim`.  The
vertical loop is `splitGuides W v_split`, the horizontal loop (textually
identical in the source with height for width) is `splitGuides H h_split`. -/
def splitGuides (dim : ℕ) (n : ℤ) : List ℤ :=
  if n > 1 then (List.range (n - 1).toNat).map (guide_pos dim n) else []

/-- GIMP run modes relevant to the procedure. -/
inductive RunMode
  | interactive
  | noninteractive
  | withLastVals
deriving DecidableEq

/-- The four PDB status codes the procedure can return. -/
inductive PDBStatus
  | success
  | cancel
  | callingError
  | executionError
deriving DecidableEq

/-- A GLib error value (domain, code, message).  `GLib.Error()` with no
arguments is the empty error. -/
structure GError where
  domain : String
  code : ℤ
  message : String
deriving DecidableEq

/-- The error the code constructs at every return site: `GLib.Error()`. -/
def GError.empty : GError := ⟨"", 0, ""⟩

/-- The parameter bundle (`config`): `h-split`, `v-split` are host-side
integers constrained to [1,100]; the two flags are booleans. -/
structure Config where
  h_split : ℤ
  v_split : ℤ
  make_centre : Bool
  draw_borders : Bool
deriving DecidableEq

/-- A host image handle: the procedure only queries `get_width` /
`get_height`.  GIMP dimensions are positive 32-bit host integers. -/
structure Image where
  width : ℕ
  height : ℕ
deriving DecidableEq

/-- Dimensions a GIMP image handle can actually carry: positive values
representable in the host's 32-bit signed integer type. -/
def Image.hostValid (img : Image) : Prop :=
  0 < img.width ∧ img.width ≤ 2 ^ 31 - 1 ∧
    0 < img.height ∧ img.height ≤ 2 ^ 31 - 1

/-- One call the procedure makes on the host image. -/
inductive HostCall
  | undoStart
  | addV (pos : ℤ)
  | addH (pos : ℤ)
  | undoEnd
deriving DecidableEq

/-- What the procedure hands back to the host: a status, the error value
attached to it, and the sequence of image calls it performed. -/
structure RunResult where
  status : PDBStatus
  error : GError
  trace : List HostCall
deriving DecidableEq

/-- The guide-adding calls the `try:` block issues, in source order:
vertical split loop, horizontal split loop, centre pair, border quadruple. -/
def plannedCalls (W H : ℕ) (cfg : Config) : List HostCall :=
  (splitGuides W cfg.v_split).map HostCall.addV
    ++ (splitGuides H cfg.h_split).map HostCall.addH
    ++ (if cfg.make_centre then
          [HostCall.addV (pyInt (floatDiv (W : ℚ) 2)),
           HostCall.addH (pyInt (floatDiv (H : ℚ) 2))]
        else [])
    ++ (if cfg.draw_borders then
          [HostCall.addV 0, HostCall.addH 0,
           HostCall.addV (W : ℤ), HostCall.addH (H : ℤ)]
        else [])

/-- `run_quick_guides`.  `dialogOk` models the result of `dialog.run()`
(consulted only in interactive mode).  `failAt = some i` models the host
raising from the `i`-th guide-adding call of the `try:` block (the
`except` clause then closes the undo group and returns EXECUTION_ERROR);
`failAt = none`, or an index past the last call, models no host failure. -/
def run_quick_guides (run_mode : RunMode) (image : Option Image)
    (config : Config) (dialogOk : Bool) (failAt : Option ℕ) : RunResult :=
  if run_mode = RunMode.interactive ∧ dialogOk = false then
    ⟨PDBStatus.cancel, GError.empty, []⟩
  else
    match image with
    | none => ⟨PDBStatus.callingError, GError.empty, []⟩
    | some img =>
      let calls := plannedCalls img.width img.height config
      match failAt with
      | some i =>
        if i < calls.length then
          ⟨PDBStatus.executionError, GError.empty,
            HostCall.undoStart :: (calls.take i ++ [HostCall.undoEnd])⟩
        else
          ⟨PDBStatus.success, GError.empty,
            HostCall.undoStart :: (calls ++ [HostCall.undoEnd])⟩
      | none =>
        ⟨PDBStatus.success, GError.empty,
          HostCall.undoStart :: (calls ++ [HostCall.undoEnd])⟩

/-- The vertical guide positions a trace adds, in order. -/
def vAdds (t : List HostCall) : List ℤ :=
  t.filterMap fun c =>
    match c with
    | HostCall.addV p => some p
    | _ => none

/-- The horizontal guide positions a trace adds, in order. -/
def hAdds (t : List HostCall) : List ℤ :=
  t.filterMap fun c =>
    match c with
    | HostCall.addH p => some p
    | _ => none

/-- Replay a trace against the host's guide lists
(vertical list, horizontal list); the host only appends. -/
def applyCalls (s : List ℤ × List ℤ) : List HostCall → List ℤ × List ℤ
  | [] => s
  | HostCall.addV p :: t => applyCalls (s.1 ++ [p], s.2) t
  | HostCall.addH p :: t => applyCalls (s.1, s.2 ++ [p]) t
  | _ :: t => applyCalls s t

lemma pow2_eq_zpow (e : ℤ) : pow2 e = (2 : ℚ) ^ e := by
  by_cases h : 0 ≤ e
  · rw [pow2, if_pos h]
    calc ((2 ^ e.toNat : ℕ) : ℚ) = (2 : ℚ) ^ e.toNat := by push_cast; ring
      _ = (2 : ℚ) ^ (e.toNat : ℤ) := (zpow_natCast _ _).symm
      _ = (2 : ℚ) ^ e := by rw [Int.toNat_of_nonneg h]
  · rw [pow2, if_neg h]
    calc ((2 ^ (-e).toNat : ℕ) : ℚ)⁻¹ = ((2 : ℚ) ^ (-e).toNat)⁻¹ := by
          push_cast; ring
      _ = ((2 : ℚ) ^ ((-e).toNat : ℤ))⁻¹ := by rw [zpow_natCast]
      _ = ((2 : ℚ) ^ (-e))⁻¹ := by
          rw [Int.toNat_of_nonneg (by omega : (0:ℤ) ≤ -e)]
      _ = (2 : ℚ) ^ e := by rw [← zpow_neg, neg_neg]

lemma pow2_neg_one : pow2 (-1 : ℤ) = 1/2 := by
  rw [pow2_eq_zpow]
  norm_num

lemma pow2_neg53 : pow2 (-53 : ℤ) = ((2 : ℚ) ^ (53 : ℕ))⁻¹ := by
  rw [pow2_eq_zpow, ← zpow_natCast (2:ℚ) 53, ← zpow_neg]
  norm_num

lemma pow2_pos (e : ℤ) : 0 < pow2 e := by
  rw [pow2_eq_zpow]
  positivity

lemma pow2_add (a b : ℤ) : pow2 (a + b) = pow2 a * pow2 b := by
  rw [pow2_eq_zpow, pow2_eq_zpow, pow2_eq_zpow,
    zpow_add₀ (by norm_num : (2 : ℚ) ≠ 0)]

lemma pow2_zero : pow2 0 = 1 := by
  rw [pow2_eq_zpow, zpow_zero]

lemma pow2_mul_pow2_neg (a : ℤ) : pow2 a * pow2 (-a) = 1 := by
  rw [← pow2_add]
  simp [pow2_zero]

lemma le_rnde (t : ℚ) : t - 1/2 ≤ (rnde t : ℚ) := by
  have h1 : (⌊t⌋ : ℚ) ≤ t := Int.floor_le t
  have h2 : t < ⌊t⌋ + 1 := Int.lt_floor_add_one t
  rw [rnde]
  split_ifs <;> push_cast <;> linarith

lemma rnde_le (t : ℚ) : (rnde t : ℚ) ≤ t + 1/2 := by
  have h1 : (⌊t⌋ : ℚ) ≤ t := Int.floor_le t
  have h2 : t < ⌊t⌋ + 1 := Int.lt_floor_add_one t
  rw [rnde]
  split_ifs <;> push_cast <;> linarith

lemma rnde_intCast (m : ℤ) : rnde (m : ℚ) = m := by
  rw [rnde, Int.floor_intCast]
  simp

lemma log2_eval {x : ℚ} {e : ℤ} (h0 : 0 < x) (h1 : pow2 e ≤ x)
    (h2 : x < pow2 (e + 1)) : Int.log 2 x = e := by
  have ha : e ≤ Int.log 2 x := by
    rw [← Int.zpow_le_iff_le_log one_lt_two h0]
    rw [pow2_eq_zpow] at h1
    exact_mod_cast h1
  have hc : Int.log 2 x < e + 1 := by
    rw [← Int.lt_zpow_iff_log_lt one_lt_two h0]
    rw [pow2_eq_zpow] at h2
    exact_mod_cast h2
  omega

lemma fl64_of_pos {x : ℚ} (h0 : 0 < x) : fl64 x = fl64Pos x := by
  rw [fl64, if_neg (by linarith), if_neg (by linarith)]

/-- Evaluation rule for `fl64` at a positive input, with the binade
exponent `e` supplied explicitly (so that concrete instances can be
checked by `decide` without reducing `Int.log`). -/
lemma fl64_eval (x : ℚ) (e : ℤ) (y : ℚ) (h0 : 0 < x) (h1 : pow2 e ≤ x)
    (h2 : x < pow2 (e + 1))
    (hy : ((rnde (x * pow2 (52 - e)) : ℤ) : ℚ) * pow2 (e - 52) = y) :
    fl64 x = y := by
  rw [fl64_of_pos h0, fl64Pos, log2_eval h0 h1 h2, hy]

lemma fl64Pos_key (x : ℚ) :
    x * pow2 (52 - Int.log 2 x) * pow2 (Int.log 2 x - 52) = x := by
  rw [mul_assoc, ← pow2_add]
  simp [pow2_zero]

lemma pow2_log_le {x : ℚ} (h0 : 0 < x) : pow2 (Int.log 2 x) ≤ x := by
  rw [pow2_eq_zpow]
  exact_mod_cast Int.zpow_log_le_self one_lt_two h0

lemma fl64_le {x : ℚ} (h0 : 0 < x) : fl64 x ≤ x + x * pow2 (-53) := by
  rw [fl64_of_pos h0, fl64Pos]
  set e := Int.log 2 x with he
  set t := x * pow2 (52 - e) with ht
  have hP : (0:ℚ) < pow2 (e - 52) := pow2_pos _
  have hkey : t * pow2 (e - 52) = x := fl64Pos_key x
  have hr : (rnde t : ℚ) ≤ t + 1/2 := rnde_le t
  have step : (rnde t : ℚ) * pow2 (e - 52) ≤ (t + 1/2) * pow2 (e - 52) :=
    mul_le_mul_of_nonneg_right hr (le_of_lt hP)
  have h53 : pow2 (e - 53) = pow2 (-1) * pow2 (e - 52) := by
    rw [← pow2_add]
    congr 1
    omega
  have expand : (t + 1/2) * pow2 (e - 52) = x + pow2 (e - 53) := by
    rw [add_mul, hkey, h53, pow2_neg_one]
  have hsmall : pow2 (e - 53) ≤ x * pow2 (-53) := by
    have : pow2 (e - 53) = pow2 e * pow2 (-53) := by
      rw [← pow2_add]
      congr 1
    rw [this]
    exact mul_le_mul_of_nonneg_right (pow2_log_le h0) (le_of_lt (pow2_pos _))
  calc (rnde t : ℚ) * pow2 (e - 52) ≤ (t + 1/2) * pow2 (e - 52) := step
    _ = x + pow2 (e - 53) := expand
    _ ≤ x + x * pow2 (-53) := by linarith

lemma le_fl64 {x : ℚ} (h0 : 0 < x) : x - x * pow2 (-53) ≤ fl64 x := by
  rw [fl64_of_pos h0, fl64Pos]
  set e := Int.log 2 x with he
  set t := x * pow2 (52 - e) with ht
  have hP : (0:ℚ) < pow2 (e - 52) := pow2_pos _
  have hkey : t * pow2 (e - 52) = x := fl64Pos_key x
  have hr : t - 1/2 ≤ (rnde t : ℚ) := le_rnde t
  have step : (t - 1/2) * pow2 (e - 52) ≤ (rnde t : ℚ) * pow2 (e - 52) :=
    mul_le_mul_of_nonneg_right hr (le_of_lt hP)
  have h53 : pow2 (e - 53) = pow2 (-1) * pow2 (e - 52) := by
    rw [← pow2_add]
    congr 1
    omega
  have expand : (t - 1/2) * pow2 (e - 52) = x - pow2 (e - 53) := by
    rw [sub_mul, hkey, h53, pow2_neg_one]
  have hsmall : pow2 (e - 53) ≤ x * pow2 (-53) := by
    have : pow2 (e - 53) = pow2 e * pow2 (-53) := by
      rw [← pow2_add]
      congr 1
    rw [this]
    exact mul_le_mul_of_nonneg_right (pow2_log_le h0) (le_of_lt (pow2_pos _))
  calc x - x * pow2 (-53) ≤ x - pow2 (e - 53) := by linarith
    _ = (t - 1/2) * pow2 (e - 52) := expand.symm
    _ ≤ (rnde t : ℚ) * pow2 (e - 52) := step

lemma fl64_nonneg {x : ℚ} (h0 : 0 ≤ x) : 0 ≤ fl64 x := by
  rcases eq_or_lt_of_le h0 with h | h
  · rw [fl64, if_neg (by linarith), if_pos h.symm]
  · have hd : pow2 (-53 : ℤ) ≤ 1 := by
      rw [pow2_neg53]
      norm_num
    have := le_fl64 h
    nlinarith [pow2_pos (-53 : ℤ)]

/-- A positive rational whose scaled significand is an integer is a
binary64 value: `fl64` is the identity on it. -/
lemma fl64_eq_self {x : ℚ} (h0 : 0 < x) (m : ℤ)
    (hm : x * pow2 (52 - Int.log 2 x) = (m : ℚ)) : fl64 x = x := by
  rw [fl64_of_pos h0, fl64Pos, hm, rnde_intCast, ← hm, fl64Pos_key x]

lemma pow2_neg53_lt : pow2 (-53 : ℤ) < 1 := by
  rw [pow2_neg53]
  norm_num

/-- Abstract error propagation: if `q` approximates `x` and `val`
approximates `q * c`, each to relative error `δ = 2 ^ (-53)`, then `val`
is within `2 ^ (-20)` of `x * c`, provided `x * c ≤ 2 ^ 31`. -/
lemma float_prod_close (x c val q E δ : ℚ) (hδpos : 0 < δ)
    (hδval : δ = ((2 : ℚ) ^ (53 : ℕ))⁻¹)
    (hxpos : 0 < x) (hc1 : 1 ≤ c)
    (hq1 : q ≤ x + x * δ) (hq2 : x - x * δ ≤ q)
    (hm1 : val ≤ q * c + q * c * δ) (hm2 : q * c - q * c * δ ≤ val)
    (hE : E = x * c) (hE31 : E ≤ 2 ^ 31) :
    E - 1 / 2 ^ 20 ≤ val ∧ val ≤ E + 1 / 2 ^ 20 := by
  have hδlt : δ < 1 := by
    rw [hδval]
    norm_num
  have hE0 : 0 ≤ E := by
    rw [hE]
    exact mul_nonneg hxpos.le (by linarith)
  have u2 : q * c ≤ x * (1 + δ) * c := by
    have h1 : q ≤ x * (1 + δ) := by nlinarith
    exact mul_le_mul_of_nonneg_right h1 (by linarith)
  have u3 : val ≤ q * c * (1 + δ) := by nlinarith
  have u4 : q * c * (1 + δ) ≤ x * (1 + δ) * c * (1 + δ) :=
    mul_le_mul_of_nonneg_right u2 (by linarith)
  have u5 : x * (1 + δ) * c * (1 + δ) = E * (1 + δ) ^ 2 := by
    rw [hE]
    ring
  have u6 : E * (1 + δ) ^ 2 ≤ E * (1 + 3 * δ) := by
    apply mul_le_mul_of_nonneg_left _ hE0
    nlinarith
  have u8 : 3 * (2 ^ 31 : ℚ) * δ ≤ 1 / 2 ^ 20 := by
    rw [hδval]
    norm_num
  have u7 : E * (1 + 3 * δ) ≤ E + 1 / 2 ^ 20 := by
    have h2 : 3 * E * δ ≤ 3 * (2 ^ 31 : ℚ) * δ := by
      apply mul_le_mul_of_nonneg_right _ hδpos.le
      linarith
    nlinarith
  have l2 : x * (1 - δ) * c ≤ q * c := by
    have h1 : x * (1 - δ) ≤ q := by nlinarith
    exact mul_le_mul_of_nonneg_right h1 (by linarith)
  have l3 : q * c * (1 - δ) ≤ val := by nlinarith
  have l4 : x * (1 - δ) * c * (1 - δ) ≤ q * c * (1 - δ) := by
    apply mul_le_mul_of_nonneg_right l2
    have hq0 : 0 < q := by nlinarith
    have : 0 ≤ q * c := mul_nonneg hq0.le (by linarith)
    linarith
  have l5 : x * (1 - δ) * c * (1 - δ) = E * (1 - δ) ^ 2 := by
    rw [hE]
    ring
  have l6 : E * (1 - 2 * δ) ≤ E * (1 - δ) ^ 2 := by
    apply mul_le_mul_of_nonneg_left _ hE0
    nlinarith
  have l8 : 2 * (2 ^ 31 : ℚ) * δ ≤ 1 / 2 ^ 20 := by
    rw [hδval]
    norm_num
  have l7 : E - 1 / 2 ^ 20 ≤ E * (1 - 2 * δ) := by
    have h2 : 2 * E * δ ≤ 2 * (2 ^ 31 : ℚ) * δ := by
      apply mul_le_mul_of_nonneg_right _ hδpos.le
      linarith
    nlinarith
  constructor
  · linarith
  · linarith

/-- The computed split value `float(W / v) * (i + 1)` lies within
`2 ^ (-20)` of the exact rational `W * (i + 1) / v`, for host-range
dimensions and split counts. -/
lemma guide_val_bounds (W : ℕ) (v : ℤ) (i : ℕ) (hW : 0 < W)
    (hWb : (W : ℚ) ≤ 2 ^ 31) (hv : 2 ≤ v) (hv2 : v ≤ 100)
    (hi : (i : ℤ) + 1 ≤ v) :
    (W : ℚ) * ((i : ℚ) + 1) / (v : ℚ) - 1 / 2 ^ 20
        ≤ floatMul (floatDiv (W : ℚ) (v : ℚ)) ((i : ℚ) + 1) ∧
      floatMul (floatDiv (W : ℚ) (v : ℚ)) ((i : ℚ) + 1)
        ≤ (W : ℚ) * ((i : ℚ) + 1) / (v : ℚ) + 1 / 2 ^ 20 := by
  have hδval : pow2 (-53 : ℤ) = ((2 : ℚ) ^ (53 : ℕ))⁻¹ := pow2_neg53
  have hδpos : (0 : ℚ) < pow2 (-53 : ℤ) := pow2_pos _
  have hvq : (0 : ℚ) < (v : ℚ) := by exact_mod_cast (by omega : (0 : ℤ) < v)
  have hWq : (0 : ℚ) < (W : ℚ) := by exact_mod_cast hW
  have hxpos : 0 < (W : ℚ) / (v : ℚ) := div_pos hWq hvq
  have hq1 : floatDiv (W : ℚ) (v : ℚ)
      ≤ (W : ℚ) / (v : ℚ) + (W : ℚ) / (v : ℚ) * pow2 (-53) := fl64_le hxpos
  have hq2 : (W : ℚ) / (v : ℚ) - (W : ℚ) / (v : ℚ) * pow2 (-53)
      ≤ floatDiv (W : ℚ) (v : ℚ) := le_fl64 hxpos
  have hc0 : (0 : ℚ) ≤ (i : ℚ) := Nat.cast_nonneg i
  have hc1 : (1 : ℚ) ≤ (i : ℚ) + 1 := by linarith
  have hcv : (i : ℚ) + 1 ≤ (v : ℚ) := by exact_mod_cast hi
  have hqpos : 0 < floatDiv (W : ℚ) (v : ℚ) := by
    have hδlt : pow2 (-53 : ℤ) < 1 := pow2_neg53_lt
    nlinarith
  have hqc : 0 < floatDiv (W : ℚ) (v : ℚ) * ((i : ℚ) + 1) :=
    mul_pos hqpos (by linarith)
  have hm1 := fl64_le hqc
  have hm2 := le_fl64 hqc
  have hEx : (W : ℚ) * ((i : ℚ) + 1) / (v : ℚ)
      = (W : ℚ) / (v : ℚ) * ((i : ℚ) + 1) := by ring
  have hEW : (W : ℚ) * ((i : ℚ) + 1) / (v : ℚ) ≤ (W : ℚ) := by
    rw [div_le_iff₀ hvq]
    exact mul_le_mul_of_nonneg_left hcv hWq.le
  exact float_prod_close ((W : ℚ) / (v : ℚ)) ((i : ℚ) + 1)
    (floatMul (floatDiv (W : ℚ) (v : ℚ)) ((i : ℚ) + 1))
    (floatDiv (W : ℚ) (v : ℚ)) ((W : ℚ) * ((i : ℚ) + 1) / (v : ℚ))
    (pow2 (-53)) hδpos hδval hxpos hc1 hq1 hq2 hm1 hm2 hEx
    (le_trans hEW (le_trans hWb (by norm_num)))

lemma floor_exact_div (W : ℕ) (v : ℤ) (i : ℕ) (hv : 0 < v) :
    ⌊(W : ℚ) * ((i : ℚ) + 1) / (v : ℚ)⌋ = (W : ℤ) * ((i : ℤ) + 1) / v := by
  have key := Rat.floor_intCast_div_natCast ((W : ℤ) * ((i : ℤ) + 1)) v.toNat
  have h1 : (((W : ℤ) * ((i : ℤ) + 1) : ℤ) : ℚ) = (W : ℚ) * ((i : ℚ) + 1) := by
    push_cast
    ring
  have h2 : ((v.toNat : ℕ) : ℚ) = (v : ℚ) := by
    exact_mod_cast Int.toNat_of_nonneg (le_of_lt hv)
  have h3 : (v.toNat : ℤ) = v := Int.toNat_of_nonneg (le_of_lt hv)
  rw [h1, h2, h3] at key
  exact key

/-- Each computed split position is the exact floor `⌊W*(i+1)/v⌋` or one
below it, and is nonnegative. -/
lemma guide_pos_sandwich (W : ℕ) (v : ℤ) (i : ℕ) (hW : 0 < W)
    (hWb : (W : ℤ) ≤ 2 ^ 31) (hv : 2 ≤ v) (hv2 : v ≤ 100)
    (hi : (i : ℤ) + 1 ≤ v) :
    (W : ℤ) * ((i : ℤ) + 1) / v - 1 ≤ guide_pos W v i ∧
      guide_pos W v i ≤ (W : ℤ) * ((i : ℤ) + 1) / v ∧
      0 ≤ guide_pos W v i := by
  have hWbq : (W : ℚ) ≤ 2 ^ 31 := by exact_mod_cast hWb
  obtain ⟨hlo, hhi⟩ := guide_val_bounds W v i hW hWbq hv hv2 hi
  have hvq : (0 : ℚ) < (v : ℚ) := by exact_mod_cast (by omega : (0 : ℤ) < v)
  have hWq : (1 : ℚ) ≤ (W : ℚ) := by exact_mod_cast hW
  have hv100 : (v : ℚ) ≤ 100 := by exact_mod_cast hv2
  set val : ℚ := floatMul (floatDiv (W : ℚ) (v : ℚ)) ((i : ℚ) + 1) with hvaldef
  set E : ℚ := (W : ℚ) * ((i : ℚ) + 1) / (v : ℚ) with hEdef
  set f : ℤ := (W : ℤ) * ((i : ℤ) + 1) / v with hfdef
  have hfl : ⌊E⌋ = f := floor_exact_div W v i (by omega)
  have hEf1 : (f : ℚ) ≤ E := by
    rw [← hfl]
    exact Int.floor_le E
  have hEf2 : E < (f : ℚ) + 1 := by
    rw [← hfl]
    exact_mod_cast Int.lt_floor_add_one E
  -- the fractional part of E is a multiple of 1/v, so E ≤ f + 1 - 1/v
  have hnum : (W : ℤ) * ((i : ℤ) + 1) < v * (f + 1) := by
    have := (div_lt_iff₀ hvq).mp (show E < ((f : ℚ) + 1) by exact_mod_cast hEf2)
    have hq : ((W : ℤ) * ((i : ℤ) + 1) : ℚ) < ((v * (f + 1) : ℤ) : ℚ) := by
      push_cast
      push_cast at this
      nlinarith
    exact_mod_cast hq
  have hle : (W : ℤ) * ((i : ℤ) + 1) ≤ v * (f + 1) - 1 := by omega
  have hleq : ((W : ℤ) * ((i : ℤ) + 1) : ℚ) ≤ ((v * (f + 1) - 1 : ℤ) : ℚ) := by
    exact_mod_cast hle
  have hEeq : E = ((W : ℤ) * ((i : ℤ) + 1) : ℚ) / (v : ℚ) := by
    rw [hEdef]
    push_cast
    ring
  have hstep : E + 1 / (v : ℚ) ≤ (f : ℚ) + 1 := by
    rw [hEeq, div_add_div_same, div_le_iff₀ hvq]
    push_cast at hleq ⊢
    nlinarith
  have hsharp : E ≤ (f : ℚ) + 1 - 1 / (v : ℚ) := by linarith
  have hinv : 1 / 2 ^ 20 < 1 / (v : ℚ) := by
    rw [div_lt_div_iff (by norm_num) hvq]
    nlinarith
  have hvub : val < (f : ℚ) + 1 := by linarith
  have hvlb : (f : ℚ) - 1 < val := by linarith
  have hEpos : 1 / 100 ≤ E := by
    rw [hEdef, le_div_iff₀ hvq]
    have hc0 : (0 : ℚ) ≤ (i : ℚ) := Nat.cast_nonneg i
    nlinarith
  have hval0 : 0 ≤ val := by
    have : (1 : ℚ) / 100 - 1 / 2 ^ 20 ≤ val := by linarith
    linarith [show (0:ℚ) ≤ 1/100 - 1/2^20 by norm_num]
  have hgp : guide_pos W v i = ⌊val⌋ := by
    rw [guide_pos, ← hvaldef, pyInt, if_neg (not_lt.mpr hval0)]
  refine ⟨?_, ?_, ?_⟩
  · rw [hgp]
    have : (f - 1 : ℤ) ≤ ⌊val⌋ := Int.le_floor.mpr (by push_cast; linarith)
    omega
  · rw [hgp]
    have : ⌊val⌋ < f + 1 := Int.floor_lt.mpr (by push_cast; linarith)
    omega
  · rw [hgp]
    exact Int.le_floor.mpr (by exact_mod_cast hval0)

/-- Consecutive computed split positions are nondecreasing. -/
lemma guide_pos_adj (W : ℕ) (v : ℤ) (i : ℕ) (hW : 0 < W)
    (hWb : (W : ℤ) ≤ 2 ^ 31) (hv : 2 ≤ v) (hv2 : v ≤ 100)
    (hi : (i : ℤ) + 2 ≤ v) :
    guide_pos W v i ≤ guide_pos W v (i + 1) := by
  have hWbq : (W : ℚ) ≤ 2 ^ 31 := by exact_mod_cast hWb
  obtain ⟨hlo1, hhi1⟩ := guide_val_bounds W v i hW hWbq hv hv2 (by omega)
  obtain ⟨hlo2, hhi2⟩ := guide_val_bounds W v (i + 1) hW hWbq hv hv2 (by push_cast; omega)
  have hvq : (0 : ℚ) < (v : ℚ) := by exact_mod_cast (by omega : (0 : ℤ) < v)
  have hWq : (1 : ℚ) ≤ (W : ℚ) := by exact_mod_cast hW
  have hv100 : (v : ℚ) ≤ 100 := by exact_mod_cast hv2
  have hcast : ((i + 1 : ℕ) : ℚ) = (i : ℚ) + 1 := by push_cast; ring
  rw [hcast] at hlo2 hhi2
  have hgap : (W : ℚ) * (((i : ℚ) + 1) + 1) / (v : ℚ)
      - (W : ℚ) * ((i : ℚ) + 1) / (v : ℚ) = (W : ℚ) / (v : ℚ) := by
    field_simp
    ring
  have hx100 : 1 / 100 ≤ (W : ℚ) / (v : ℚ) := by
    rw [div_le_div_iff (by norm_num) hvq]
    nlinarith
  have hmono : floatMul (floatDiv (W : ℚ) (v : ℚ)) ((i : ℚ) + 1)
      ≤ floatMul (floatDiv (W : ℚ) (v : ℚ)) (((i : ℚ) + 1) + 1) := by
    have h1 : (1:ℚ)/100 - 2/2^20 > 0 := by norm_num
    linarith
  have hc0 : (0 : ℚ) ≤ (i : ℚ) := Nat.cast_nonneg i
  have hval0a : 0 ≤ floatMul (floatDiv (W : ℚ) (v : ℚ)) ((i : ℚ) + 1) := by
    have hE1 : 1 / 100 ≤ (W : ℚ) * ((i : ℚ) + 1) / (v : ℚ) := by
      rw [le_div_iff₀ hvq]
      nlinarith
    linarith [show (0:ℚ) ≤ 1/100 - 1/2^20 by norm_num]
  have hval0b : 0 ≤ floatMul (floatDiv (W : ℚ) (v : ℚ)) (((i : ℚ) + 1) + 1) := by
    have hE2 : 1 / 100 ≤ (W : ℚ) * (((i : ℚ) + 1) + 1) / (v : ℚ) := by
      rw [le_div_iff₀ hvq]
      nlinarith
    linarith [show (0:ℚ) ≤ 1/100 - 1/2^20 by norm_num]
  rw [guide_pos, guide_pos, pyInt, pyInt, if_neg (not_lt.mpr hval0a),
    if_neg (by rw [hcast]; exact not_lt.mpr hval0b)]
  rw [hcast]
  exact Int.floor_le_floor hmono

/-- Monotonicity transfer from adjacent steps. -/
lemma mono_of_adj (g : ℕ → ℤ) (m : ℕ) (H : ∀ k, k + 1 < m → g k ≤ g (k + 1)) :
    ∀ i j, i ≤ j → j < m → g i ≤ g j := by
  intro i j hij hjm
  induction j with
  | zero =>
    have : i = 0 := by omega
    rw [this]
  | succ n ih =>
    rcases Nat.eq_or_lt_of_le hij with h | h
    · rw [h]
    · have h1 : g i ≤ g n := ih (by omega) (by omega)
      have h2 : g n ≤ g (n + 1) := H n (by omega)
      omega

lemma splitGuides_eq (dim : ℕ) (n : ℤ) (hn : 1 < n) :
    splitGuides dim n = (List.range (n - 1).toNat).map (guide_pos dim n) := by
  rw [splitGuides, if_pos hn]

lemma splitGuides_one (dim : ℕ) : splitGuides dim 1 = [] := by
  rw [splitGuides, if_neg (by decide)]

lemma splitGuides_length (dim : ℕ) (n : ℤ) (hn : 1 < n) :
    (splitGuides dim n).length = (n - 1).toNat := by
  rw [splitGuides_eq dim n hn, List.length_map, List.length_range]

lemma splitGuides_getElem (dim : ℕ) (n : ℤ) (i : ℕ) (hn : 1 < n)
    (h : i < (splitGuides dim n).length) :
    (splitGuides dim n)[i] = guide_pos dim n i := by
  have h2 : i < (n - 1).toNat := by
    rwa [splitGuides_length dim n hn] at h
  simp [splitGuides_eq dim n hn]

lemma vAdds_nil : vAdds [] = [] := rfl

lemma vAdds_cons_undoStart (t : List HostCall) :
    vAdds (HostCall.undoStart :: t) = vAdds t := rfl

lemma vAdds_cons_addV (p : ℤ) (t : List HostCall) :
    vAdds (HostCall.addV p :: t) = p :: vAdds t := rfl

lemma vAdds_cons_addH (p : ℤ) (t : List HostCall) :
    vAdds (HostCall.addH p :: t) = vAdds t := rfl

lemma vAdds_cons_undoEnd (t : List HostCall) :
    vAdds (HostCall.undoEnd :: t) = vAdds t := rfl

lemma hAdds_nil : hAdds [] = [] := rfl

lemma hAdds_cons_undoStart (t : List HostCall) :
    hAdds (HostCall.undoStart :: t) = hAdds t := rfl

lemma hAdds_cons_addV (p : ℤ) (t : List HostCall) :
    hAdds (HostCall.addV p :: t) = hAdds t := rfl

lemma hAdds_cons_addH (p : ℤ) (t : List HostCall) :
    hAdds (HostCall.addH p :: t) = p :: hAdds t := rfl

lemma hAdds_cons_undoEnd (t : List HostCall) :
    hAdds (HostCall.undoEnd :: t) = hAdds t := rfl

lemma vAdds_append (s t : List HostCall) :
    vAdds (s ++ t) = vAdds s ++ vAdds t := by
  rw [vAdds, vAdds, vAdds, List.filterMap_append]

lemma hAdds_append (s t : List HostCall) :
    hAdds (s ++ t) = hAdds s ++ hAdds t := by
  rw [hAdds, hAdds, hAdds, List.filterMap_append]

lemma vAdds_map_addV (l : List ℤ) : vAdds (l.map HostCall.addV) = l := by
  induction l with
  | nil => rfl
  | cons a t ih => rw [List.map_cons, vAdds_cons_addV, ih]

lemma vAdds_map_addH (l : List ℤ) : vAdds (l.map HostCall.addH) = [] := by
  induction l with
  | nil => rfl
  | cons a t ih => rw [List.map_cons, vAdds_cons_addH, ih]

lemma hAdds_map_addV (l : List ℤ) : hAdds (l.map HostCall.addV) = [] := by
  induction l with
  | nil => rfl
  | cons a t ih => rw [List.map_cons, hAdds_cons_addV, ih]

lemma hAdds_map_addH (l : List ℤ) : hAdds (l.map HostCall.addH) = l := by
  induction l with
  | nil => rfl
  | cons a t ih => rw [List.map_cons, hAdds_cons_addH, ih]

lemma mem_vAdds {p : ℤ} {t : List HostCall} :
    p ∈ vAdds t ↔ HostCall.addV p ∈ t := by
  induction t with
  | nil => simp [vAdds_nil]
  | cons c t ih =>
    cases c with
    | undoStart => rw [vAdds_cons_undoStart]; simp [ih]
    | addV q => rw [vAdds_cons_addV]; simp [ih]
    | addH q => rw [vAdds_cons_addH]; simp [ih]
    | undoEnd => rw [vAdds_cons_undoEnd]; simp [ih]

lemma mem_hAdds {p : ℤ} {t : List HostCall} :
    p ∈ hAdds t ↔ HostCall.addH p ∈ t := by
  induction t with
  | nil => simp [hAdds_nil]
  | cons c t ih =>
    cases c with
    | undoStart => rw [hAdds_cons_undoStart]; simp [ih]
    | addV q => rw [hAdds_cons_addV]; simp [ih]
    | addH q => rw [hAdds_cons_addH]; simp [ih]
    | undoEnd => rw [hAdds_cons_undoEnd]; simp [ih]

lemma vAdds_plannedCalls (W H : ℕ) (cfg : Config) :
    vAdds (plannedCalls W H cfg) =
      splitGuides W cfg.v_split
        ++ (if cfg.make_centre then [pyInt (floatDiv (W : ℚ) 2)] else [])
        ++ (if cfg.draw_borders then [0, (W : ℤ)] else []) := by
  rw [plannedCalls]
  cases hc : cfg.make_centre <;> cases hb : cfg.draw_borders <;>
    simp [vAdds_append, vAdds_map_addV, vAdds_map_addH, vAdds_cons_addV,
      vAdds_cons_addH, vAdds_nil]

lemma hAdds_plannedCalls (W H : ℕ) (cfg : Config) :
    hAdds (plannedCalls W H cfg) =
      splitGuides H cfg.h_split
        ++ (if cfg.make_centre then [pyInt (floatDiv (H : ℚ) 2)] else [])
        ++ (if cfg.draw_borders then [0, (H : ℤ)] else []) := by
  rw [plannedCalls]
  cases hc : cfg.make_centre <;> cases hb : cfg.draw_borders <;>
    simp [hAdds_append, hAdds_map_addV, hAdds_map_addH, hAdds_cons_addV,
      hAdds_cons_addH, hAdds_nil]

lemma run_cancel (image : Option Image) (cfg : Config) (failAt : Option ℕ) :
    run_quick_guides RunMode.interactive image cfg false failAt =
      ⟨PDBStatus.cancel, GError.empty, []⟩ := by
  rw [run_quick_guides.eq_def, if_pos ⟨rfl, rfl⟩]

lemma run_no_image (rm : RunMode) (cfg : Config) (dOk : Bool) (failAt : Option ℕ)
    (h : ¬(rm = RunMode.interactive ∧ dOk = false)) :
    run_quick_guides rm none cfg dOk failAt =
      ⟨PDBStatus.callingError, GError.empty, []⟩ := by
  rw [run_quick_guides.eq_def, if_neg h]

lemma run_success (rm : RunMode) (img : Image) (cfg : Config) (dOk : Bool)
    (h : ¬(rm = RunMode.interactive ∧ dOk = false)) :
    run_quick_guides rm (some img) cfg dOk none =
      ⟨PDBStatus.success, GError.empty,
        HostCall.undoStart ::
          (plannedCalls img.width img.height cfg ++ [HostCall.undoEnd])⟩ := by
  rw [run_quick_guides.eq_def, if_neg h]

lemma run_fail (rm : RunMode) (img : Image) (cfg : Config) (dOk : Bool) (i : ℕ)
    (h : ¬(rm = RunMode.interactive ∧ dOk = false))
    (hi : i < (plannedCalls img.width img.height cfg).length) :
    run_quick_guides rm (some img) cfg dOk (some i) =
      ⟨PDBStatus.executionError, GError.empty,
        HostCall.undoStart ::
          ((plannedCalls img.width img.height cfg).take i
            ++ [HostCall.undoEnd])⟩ := by
  rw [run_quick_guides.eq_def, if_neg h]
  simp [hi]

lemma run_fail_late (rm : RunMode) (img : Image) (cfg : Config) (dOk : Bool)
    (i : ℕ) (h : ¬(rm = RunMode.interactive ∧ dOk = false))
    (hi : ¬ i < (plannedCalls img.width img.height cfg).length) :
    run_quick_guides rm (some img) cfg dOk (some i) =
      ⟨PDBStatus.success, GError.empty,
        HostCall.undoStart ::
          (plannedCalls img.width img.height cfg ++ [HostCall.undoEnd])⟩ := by
  rw [run_quick_guides.eq_def, if_neg h]
  simp [hi]

lemma plannedCalls_shape (W H : ℕ) (cfg : Config) :
    ∀ c ∈ plannedCalls W H cfg,
      (∃ p, c = HostCall.addV p) ∨ ∃ p, c = HostCall.addH p := by
  intro c hc
  rw [plannedCalls] at hc
  simp only [List.mem_append, List.mem_map] at hc
  rcases hc with ((⟨p, _, rfl⟩ | ⟨p, _, rfl⟩) | hc) | hc
  · exact Or.inl ⟨p, rfl⟩
  · exact Or.inr ⟨p, rfl⟩
  · cases hmc : cfg.make_centre <;> rw [hmc] at hc <;> simp at hc <;>
      rcases hc with rfl | rfl
    · exact Or.inl ⟨_, rfl⟩
    · exact Or.inr ⟨_, rfl⟩
  · cases hdb : cfg.draw_borders <;> rw [hdb] at hc <;> simp at hc <;>
      rcases hc with rfl | rfl | rfl | rfl
    · exact Or.inl ⟨_, rfl⟩
    · exact Or.inr ⟨_, rfl⟩
    · exact Or.inl ⟨_, rfl⟩
    · exact Or.inr ⟨_, rfl⟩

lemma applyCalls_eq (t : List HostCall) :
    ∀ s : List ℤ × List ℤ, applyCalls s t = (s.1 ++ vAdds t, s.2 ++ hAdds t) := by
  induction t with
  | nil => intro s; simp [applyCalls, vAdds_nil, hAdds_nil]
  | cons c t ih =>
    intro s
    cases c with
    | undoStart =>
      rw [vAdds_cons_undoStart, hAdds_cons_undoStart]
      exact ih s
    | addV p =>
      rw [vAdds_cons_addV, hAdds_cons_addV]
      rw [show applyCalls s (HostCall.addV p :: t)
          = applyCalls (s.1 ++ [p], s.2) t from rfl, ih]
      simp
    | addH p =>
      rw [vAdds_cons_addH, hAdds_cons_addH]
      rw [show applyCalls s (HostCall.addH p :: t)
          = applyCalls (s.1, s.2 ++ [p]) t from rfl, ih]
      simp
    | undoEnd =>
      rw [vAdds_cons_undoEnd, hAdds_cons_undoEnd]
      exact ih s

lemma pow2_one : pow2 (1 : ℤ) = 2 := by
  rw [pow2_eq_zpow, zpow_one]

/-- For `n < 2 ^ 53`, the rational `n / 2` is exactly representable in
binary64, so Python computes `n / 2` without rounding. -/
lemma fl64_half (n : ℕ) (h0 : 0 < n) (h1 : (n : ℚ) < 2 ^ 53) :
    fl64 ((n : ℚ) / 2) = (n : ℚ) / 2 := by
  have hn : (0 : ℚ) < (n : ℚ) := by exact_mod_cast h0
  have hx : (0 : ℚ) < (n : ℚ) / 2 := by linarith
  have he : Int.log 2 ((n : ℚ) / 2) ≤ 51 := by
    have hlt : (n : ℚ) / 2 < ((2 : ℕ) : ℚ) ^ (52 : ℤ) := by
      have h2 : ((2 : ℕ) : ℚ) ^ (52 : ℤ) = (2 : ℚ) ^ (52 : ℕ) := by
        rw [show ((2 : ℕ) : ℚ) = (2 : ℚ) from by norm_num,
          show (52 : ℤ) = ((52 : ℕ) : ℤ) from rfl, zpow_natCast]
      rw [h2]
      nlinarith
    have := (Int.lt_zpow_iff_log_lt one_lt_two hx).mp hlt
    omega
  set e := Int.log 2 ((n : ℚ) / 2) with hedef
  apply fl64_eq_self hx ((n : ℤ) * 2 ^ (51 - e).toNat)
  have hsplit : pow2 (52 - e) = 2 * pow2 (51 - e) := by
    rw [show (52 - e : ℤ) = 1 + (51 - e) by ring, pow2_add, pow2_one]
  have h51 : pow2 (51 - e) = ((2 ^ (51 - e).toNat : ℕ) : ℚ) := by
    rw [pow2, if_pos (by omega)]
  rw [hsplit, h51]
  push_cast
  ring

lemma pyInt_cast_div_two (n : ℕ) : pyInt ((n : ℚ) / 2) = (n : ℤ) / 2 := by
  have h0 : (0 : ℚ) ≤ (n : ℚ) / 2 := by positivity
  rw [pyInt, if_neg (not_lt.mpr h0)]
  have key := Rat.floor_intCast_div_natCast (n : ℤ) 2
  have h1 : (((n : ℤ) : ℚ)) = (n : ℚ) := by push_cast; ring
  have h2 : (((2 : ℕ) : ℚ)) = (2 : ℚ) := by norm_num
  rw [h1, h2] at key
  exact key

/-- The centre guide position `int(dim / 2)` equals `⌊dim / 2⌋` for every
host-representable dimension. -/
lemma centre_pos_eval (n : ℕ) (h0 : 0 < n) (hb : n ≤ 2 ^ 31 - 1) :
    pyInt (floatDiv (n : ℚ) 2) = (n : ℤ) / 2 := by
  have h53 : (n : ℚ) < 2 ^ 53 := by
    have hn : n < 2 ^ 53 := by omega
    exact_mod_cast hn
  have hf : floatDiv (n : ℚ) 2 = (n : ℚ) / 2 := by
    rw [floatDiv]
    exact fl64_half n h0 h53
  rw [hf, pyInt_cast_div_two]

/-- The properties claimed of one split loop over a dimension `dim` with
split count `n`: it yields `n - 1` positions, each either the exact
`⌊dim * k / n⌋` or one pixel below it (binary64 round-off), and the
positions are nondecreasing. -/
def splitSpecHolds (dim : ℕ) (n : ℤ) : Prop :=
  (splitGuides dim n).length = (n - 1).toNat ∧
  (∀ i (hilt : i < (splitGuides dim n).length),
    (splitGuides dim n).get ⟨i, hilt⟩ = (dim : ℤ) * ((i : ℤ) + 1) / n ∨
    (splitGuides dim n).get ⟨i, hilt⟩ = (dim : ℤ) * ((i : ℤ) + 1) / n - 1) ∧
  ∀ i j (hij : i ≤ j) (hj : j < (splitGuides dim n).length),
    (splitGuides dim n).get ⟨i, by omega⟩ ≤ (splitGuides dim n).get ⟨j, hj⟩

lemma splitSpec_proof (dim : ℕ) (n : ℤ) (hd : 0 < dim)
    (hdb : (dim : ℕ) ≤ 2 ^ 31 - 1) (hn : 2 ≤ n) (hn2 : n ≤ 100) :
    splitSpecHolds dim n := by
  have hn1 : 1 < n := by omega
  have hdb' : (dim : ℤ) ≤ 2 ^ 31 := by
    have h3 : dim ≤ 2 ^ 31 := le_trans hdb (by norm_num)
    exact_mod_cast h3
  have hlen : (splitGuides dim n).length = (n - 1).toNat :=
    splitGuides_length dim n hn1
  refine ⟨hlen, ?_, ?_⟩
  · intro i hilt
    have hi2 : (i : ℤ) + 1 ≤ n := by
      have : i < (n - 1).toNat := by omega
      omega
    rw [List.get_eq_getElem, splitGuides_getElem dim n i hn1 hilt]
    obtain ⟨h1, h2, _⟩ := guide_pos_sandwich dim n i hd hdb' hn hn2 hi2
    omega
  · intro i j hij hj
    have hadj : ∀ k, k + 1 < (n - 1).toNat →
        guide_pos dim n k ≤ guide_pos dim n (k + 1) := by
      intro k hk
      exact guide_pos_adj dim n k hd hdb' hn hn2 (by omega)
    have hmono := mono_of_adj (guide_pos dim n) (n - 1).toNat hadj i j hij
      (by omega)
    rw [List.get_eq_getElem, List.get_eq_getElem,
      splitGuides_getElem dim n i hn1 (by omega),
      splitGuides_getElem dim n j hn1 hj]
    exact hmono

/-- C1 (amended): for host-representable dimensions and `v_split ∈ [2,100]`,
a successful invocation adds exactly `v_split - 1` vertical split guides
(besides any centre/border guides), the `i`-th at the binary64 value
`int((W / v_split) * (i + 1))`, which equals `⌊W * (i+1) / v_split⌋` or
that floor minus one; the positions are nondecreasing (not strictly
increasing in general).  Symmetrically for `h_split` over the height. -/
theorem C1_split_positions (W H : ℕ) (v h : ℤ) (mc db : Bool)
    (hW : 0 < W) (hWb : W ≤ 2 ^ 31 - 1) (hH : 0 < H) (hHb : H ≤ 2 ^ 31 - 1)
    (hv : 2 ≤ v) (hv2 : v ≤ 100) (hh : 2 ≤ h) (hh2 : h ≤ 100) :
    (run_quick_guides RunMode.noninteractive (some ⟨W, H⟩)
        ⟨h, v, mc, db⟩ true none).status = PDBStatus.success ∧
    vAdds (run_quick_guides RunMode.noninteractive (some ⟨W, H⟩)
        ⟨h, v, mc, db⟩ true none).trace
      = splitGuides W v
          ++ (if mc then [pyInt (floatDiv (W : ℚ) 2)] else [])
          ++ (if db then [0, (W : ℤ)] else []) ∧
    hAdds (run_quick_guides RunMode.noninteractive (some ⟨W, H⟩)
        ⟨h, v, mc, db⟩ true none).trace
      = splitGuides H h
          ++ (if mc then [pyInt (floatDiv (H : ℚ) 2)] else [])
          ++ (if db then [0, (H : ℤ)] else []) ∧
    splitSpecHolds W v ∧ splitSpecHolds H h := by
  have hrm : ¬(RunMode.noninteractive = RunMode.interactive
      ∧ (true : Bool) = false) := by simp
  have hrun := run_success RunMode.noninteractive ⟨W, H⟩ ⟨h, v, mc, db⟩ true hrm
  refine ⟨by rw [hrun], ?_, ?_,
    splitSpec_proof W v hW hWb hv hv2, splitSpec_proof H h hH hHb hh hh2⟩
  · rw [hrun]
    show vAdds (HostCall.undoStart ::
      (plannedCalls W H ⟨h, v, mc, db⟩ ++ [HostCall.undoEnd])) = _
    rw [vAdds_cons_undoStart, vAdds_append, vAdds_plannedCalls]
    simp [vAdds_cons_undoEnd, vAdds_nil]
  · rw [hrun]
    show hAdds (HostCall.undoStart ::
      (plannedCalls W H ⟨h, v, mc, db⟩ ++ [HostCall.undoEnd])) = _
    rw [hAdds_cons_undoStart, hAdds_append, hAdds_plannedCalls]
    simp [hAdds_cons_undoEnd, hAdds_nil]

/-- C1 witness at the spec's own example, W=900, H=600, 3×3 splits. -/
theorem C1_split_positions_witness :
    (run_quick_guides RunMode.noninteractive (some ⟨900, 600⟩)
        ⟨3, 3, false, false⟩ true none).status = PDBStatus.success ∧
    vAdds (run_quick_guides RunMode.noninteractive (some ⟨900, 600⟩)
        ⟨3, 3, false, false⟩ true none).trace
      = splitGuides 900 3
          ++ (if false then [pyInt (floatDiv ((900 : ℕ) : ℚ) 2)] else [])
          ++ (if false then [0, ((900 : ℕ) : ℤ)] else []) ∧
    hAdds (run_quick_guides RunMode.noninteractive (some ⟨900, 600⟩)
        ⟨3, 3, false, false⟩ true none).trace
      = splitGuides 600 3
          ++ (if false then [pyInt (floatDiv ((600 : ℕ) : ℚ) 2)] else [])
          ++ (if false then [0, ((600 : ℕ) : ℤ)] else []) ∧
    splitSpecHolds 900 3 ∧ splitSpecHolds 600 3 :=
  C1_split_positions 900 600 3 3 false false (by norm_num) (by norm_num)
    (by norm_num) (by norm_num) (by norm_num) (by norm_num) (by norm_num)
    (by norm_num)

attribute [local semireducible] Rat.mul Rat.inv Rat.add Rat.sub in
/-- C1 counterexample to the claim as stated: at W=122, v_split=14 the
7th computed vertical guide (k=7) lands at 60, not at
`⌊122 * 7 / 14⌋ = 61` (binary64 round-off: `int((122/14)*7)` evaluates
`(122/14)*7` to `60.99999999999999`), and at W=1, v_split=3 the two
computed positions are both 0, so the positions are not strictly
increasing. -/
theorem C1_counterexample :
    (splitGuides 122 14)[6]? = some 60 ∧ (122 * 7 : ℤ) / 14 = 61 ∧
      (splitGuides 1 3)[0]? = some 0 ∧ (splitGuides 1 3)[1]? = some 0 := by
  have e1 : floatDiv ((122 : ℕ) : ℚ) ((14 : ℤ) : ℚ)
      = 4905706736957147 / 2 ^ 49 := by
    rw [floatDiv]
    exact fl64_eval _ 3 _ (by decide) (by decide) (by decide) (by decide)
  have e2 : floatMul (4905706736957147 / 2 ^ 49) (((6 : ℕ) : ℚ) + 1)
      = 8584986789675007 / 2 ^ 47 := by
    rw [floatMul]
    exact fl64_eval _ 5 _ (by decide) (by decide) (by decide) (by decide)
  have g1 : guide_pos 122 14 6 = 60 := by
    rw [guide_pos, e1, e2]
    decide
  have e3 : floatDiv ((1 : ℕ) : ℚ) ((3 : ℤ) : ℚ)
      = 6004799503160661 / 2 ^ 54 := by
    rw [floatDiv]
    exact fl64_eval _ (-2) _ (by decide) (by decide) (by decide) (by decide)
  have e4 : floatMul (6004799503160661 / 2 ^ 54) (((0 : ℕ) : ℚ) + 1)
      = 6004799503160661 / 2 ^ 54 := by
    rw [floatMul]
    exact fl64_eval _ (-2) _ (by decide) (by decide) (by decide) (by decide)
  have e5 : floatMul (6004799503160661 / 2 ^ 54) (((1 : ℕ) : ℚ) + 1)
      = 6004799503160661 / 2 ^ 53 := by
    rw [floatMul]
    exact fl64_eval _ (-1) _ (by decide) (by decide) (by decide) (by decide)
  have g2 : guide_pos 1 3 0 = 0 := by
    rw [guide_pos, e3, e4]
    decide
  have g3 : guide_pos 1 3 1 = 0 := by
    rw [guide_pos, e3, e5]
    decide
  refine ⟨?_, by decide, ?_, ?_⟩
  · rw [splitGuides_eq 122 14 (by decide), List.getElem?_map,
      show (List.range ((14 - 1 : ℤ)).toNat)[6]? = some 6 by decide]
    simp [g1]
  · rw [splitGuides_eq 1 3 (by decide), List.getElem?_map,
      show (List.range ((3 - 1 : ℤ)).toNat)[0]? = some 0 by decide]
    simp [g2]
  · rw [splitGuides_eq 1 3 (by decide), List.getElem?_map,
      show (List.range ((3 - 1 : ℤ)).toNat)[1]? = some 1 by decide]
    simp [g3]

/-- C2: with `v_split = 1` the vertical split loop contributes no guide
(`splitGuides _ 1 = []`), and the vertical guides the procedure plans are
exactly the centre/border ones; symmetrically for `h_split = 1`. -/
theorem C2_no_split_guides (W H : ℕ) (cfg : Config) :
    (cfg.v_split = 1 → splitGuides W cfg.v_split = [] ∧
      vAdds (plannedCalls W H cfg) =
        (if cfg.make_centre then [pyInt (floatDiv (W : ℚ) 2)] else [])
          ++ (if cfg.draw_borders then [0, (W : ℤ)] else [])) ∧
    (cfg.h_split = 1 → splitGuides H cfg.h_split = [] ∧
      hAdds (plannedCalls W H cfg) =
        (if cfg.make_centre then [pyInt (floatDiv (H : ℚ) 2)] else [])
          ++ (if cfg.draw_borders then [0, (H : ℤ)] else [])) := by
  constructor
  · intro h1
    rw [h1, splitGuides_one]
    refine ⟨rfl, ?_⟩
    rw [vAdds_plannedCalls, h1, splitGuides_one, List.nil_append]
  · intro h1
    rw [h1, splitGuides_one]
    refine ⟨rfl, ?_⟩
    rw [hAdds_plannedCalls, h1, splitGuides_one, List.nil_append]

/-- C2 witness at the spec's border example: `h_split = v_split = 1`,
no centre, borders on, W=800, H=400. -/
theorem C2_no_split_guides_witness :
    splitGuides 800 (1 : ℤ) = [] ∧
      vAdds (plannedCalls 800 400 ⟨1, 1, false, true⟩) = [0, (800 : ℤ)] ∧
      splitGuides 400 (1 : ℤ) = [] ∧
      hAdds (plannedCalls 800 400 ⟨1, 1, false, true⟩) = [0, (400 : ℤ)] := by
  obtain ⟨hv, hh⟩ := C2_no_split_guides 800 400 ⟨1, 1, false, true⟩
  obtain ⟨hv1, hv2⟩ := hv rfl
  obtain ⟨hh1, hh2⟩ := hh rfl
  exact ⟨hv1, by simpa using hv2, hh1, by simpa using hh2⟩

/-- C3: with `make_centre` on, a successful invocation plans exactly one
vertical guide at `⌊W/2⌋` and one horizontal guide at `⌊H/2⌋` — the pair
in the middle of the planned-call list — whatever the split counts and
border flag are. -/
theorem C3_centre_guides (img : Image) (cfg : Config) (rm : RunMode)
    (dOk : Bool) (hvalid : img.hostValid) (hmc : cfg.make_centre = true)
    (hrm : ¬(rm = RunMode.interactive ∧ dOk = false)) :
    (run_quick_guides rm (some img) cfg dOk none).status
        = PDBStatus.success ∧
    plannedCalls img.width img.height cfg =
      (splitGuides img.width cfg.v_split).map HostCall.addV
        ++ (splitGuides img.height cfg.h_split).map HostCall.addH
        ++ [HostCall.addV ((img.width : ℤ) / 2),
            HostCall.addH ((img.height : ℤ) / 2)]
        ++ (if cfg.draw_borders then
              [HostCall.addV 0, HostCall.addH 0,
               HostCall.addV (img.width : ℤ), HostCall.addH (img.height : ℤ)]
            else []) ∧
    (run_quick_guides rm (some img) cfg dOk none).trace =
      HostCall.undoStart ::
        (plannedCalls img.width img.height cfg ++ [HostCall.undoEnd]) := by
  obtain ⟨hw0, hwb, hh0, hhb⟩ := hvalid
  have hcw := centre_pos_eval img.width hw0 hwb
  have hch := centre_pos_eval img.height hh0 hhb
  have hrun := run_success rm img cfg dOk hrm
  refine ⟨by rw [hrun], ?_, by rw [hrun]⟩
  rw [plannedCalls, hmc, if_pos rfl, hcw, hch]

/-- C3 witness: the 900×600 image with default parameters. -/
theorem C3_centre_guides_witness :
    (run_quick_guides RunMode.noninteractive (some ⟨900, 600⟩)
        ⟨3, 3, true, false⟩ true none).status = PDBStatus.success ∧
    plannedCalls 900 600 ⟨3, 3, true, false⟩ =
      (splitGuides 900 (3 : ℤ)).map HostCall.addV
        ++ (splitGuides 600 (3 : ℤ)).map HostCall.addH
        ++ [HostCall.addV (((900 : ℕ) : ℤ) / 2),
            HostCall.addH (((600 : ℕ) : ℤ) / 2)]
        ++ (if false then
              [HostCall.addV 0, HostCall.addH 0,
               HostCall.addV ((900 : ℕ) : ℤ), HostCall.addH ((600 : ℕ) : ℤ)]
            else []) ∧
    (run_quick_guides RunMode.noninteractive (some ⟨900, 600⟩)
        ⟨3, 3, true, false⟩ true none).trace =
      HostCall.undoStart ::
        (plannedCalls 900 600 ⟨3, 3, true, false⟩ ++ [HostCall.undoEnd]) :=
  C3_centre_guides ⟨900, 600⟩ ⟨3, 3, true, false⟩ RunMode.noninteractive true
    (by refine ⟨by norm_num, by norm_num, by norm_num, by norm_num⟩) rfl
    (by simp)

/-- C4: with `draw_borders` on, a successful invocation plans exactly
four border guides — vertical at 0 and W, horizontal at 0 and H, in the
source's order v0, h0, vW, hH — whatever the other parameters are. -/
theorem C4_border_guides (img : Image) (cfg : Config) (rm : RunMode)
    (dOk : Bool) (hdb : cfg.draw_borders = true)
    (hrm : ¬(rm = RunMode.interactive ∧ dOk = false)) :
    (run_quick_guides rm (some img) cfg dOk none).status
        = PDBStatus.success ∧
    plannedCalls img.width img.height cfg =
      (splitGuides img.width cfg.v_split).map HostCall.addV
        ++ (splitGuides img.height cfg.h_split).map HostCall.addH
        ++ (if cfg.make_centre then
              [HostCall.addV (pyInt (floatDiv (img.width : ℚ) 2)),
               HostCall.addH (pyInt (floatDiv (img.height : ℚ) 2))]
            else [])
        ++ [HostCall.addV 0, HostCall.addH 0,
            HostCall.addV (img.width : ℤ), HostCall.addH (img.height : ℤ)] ∧
    (run_quick_guides rm (some img) cfg dOk none).trace =
      HostCall.undoStart ::
        (plannedCalls img.width img.height cfg ++ [HostCall.undoEnd]) := by
  have hrun := run_success rm img cfg dOk hrm
  refine ⟨by rw [hrun], ?_, by rw [hrun]⟩
  rw [plannedCalls, hdb, if_pos rfl]

/-- C4 witness: the spec's border example, 800×400, no splits, borders on. -/
theorem C4_border_guides_witness :
    (run_quick_guides RunMode.noninteractive (some ⟨800, 400⟩)
        ⟨1, 1, false, true⟩ true none).status = PDBStatus.success ∧
    plannedCalls 800 400 ⟨1, 1, false, true⟩ =
      (splitGuides 800 (1 : ℤ)).map HostCall.addV
        ++ (splitGuides 400 (1 : ℤ)).map HostCall.addH
        ++ (if false then
              [HostCall.addV (pyInt (floatDiv ((800 : ℕ) : ℚ) 2)),
               HostCall.addH (pyInt (floatDiv ((400 : ℕ) : ℚ) 2))]
            else [])
        ++ [HostCall.addV 0, HostCall.addH 0,
            HostCall.addV ((800 : ℕ) : ℤ), HostCall.addH ((400 : ℕ) : ℤ)] ∧
    (run_quick_guides RunMode.noninteractive (some ⟨800, 400⟩)
        ⟨1, 1, false, true⟩ true none).trace =
      HostCall.undoStart ::
        (plannedCalls 800 400 ⟨1, 1, false, true⟩ ++ [HostCall.undoEnd]) :=
  C4_border_guides ⟨800, 400⟩ ⟨1, 1, false, true⟩ RunMode.noninteractive true
    rfl (by simp)

/-- C5 counterexample to the claim as stated: an interactive invocation
whose dialog is cancelled returns CANCEL, not CALLING_ERROR, even when no
image is supplied (the dialog runs before the image check). -/
theorem C5_counterexample :
    run_quick_guides RunMode.interactive none ⟨3, 3, true, false⟩ false none
        = ⟨PDBStatus.cancel, GError.empty, []⟩ ∧
      PDBStatus.cancel ≠ PDBStatus.callingError :=
  ⟨run_cancel none ⟨3, 3, true, false⟩ none, by decide⟩

/-- C5 (amended): every invocation without an image that passes the
dialog stage (non-interactive, or dialog confirmed) returns
CALLING_ERROR with an empty trace: no undo transaction opened, no guide
added. -/
theorem C5_no_image (rm : RunMode) (cfg : Config) (dOk : Bool)
    (failAt : Option ℕ) (h : ¬(rm = RunMode.interactive ∧ dOk = false)) :
    run_quick_guides rm none cfg dOk failAt =
      ⟨PDBStatus.callingError, GError.empty, []⟩ :=
  run_no_image rm cfg dOk failAt h

/-- C5 witness: a non-interactive call with no image. -/
theorem C5_no_image_witness :
    run_quick_guides RunMode.noninteractive none ⟨3, 3, true, false⟩ true
        none = ⟨PDBStatus.callingError, GError.empty, []⟩ :=
  C5_no_image RunMode.noninteractive ⟨3, 3, true, false⟩ true none (by simp)

/-- C6: when the host raises from the `i`-th guide-adding call, the
procedure closes the undo group and returns EXECUTION_ERROR; the trace
retains exactly the calls made before the failure (nothing is removed). -/
theorem C6_error_path (rm : RunMode) (img : Image) (cfg : Config)
    (dOk : Bool) (i : ℕ) (h : ¬(rm = RunMode.interactive ∧ dOk = false))
    (hi : i < (plannedCalls img.width img.height cfg).length) :
    (run_quick_guides rm (some img) cfg dOk (some i)).status
        = PDBStatus.executionError ∧
    (run_quick_guides rm (some img) cfg dOk (some i)).trace =
      HostCall.undoStart ::
        ((plannedCalls img.width img.height cfg).take i
          ++ [HostCall.undoEnd]) ∧
    vAdds (run_quick_guides rm (some img) cfg dOk (some i)).trace
      = vAdds ((plannedCalls img.width img.height cfg).take i) ∧
    hAdds (run_quick_guides rm (some img) cfg dOk (some i)).trace
      = hAdds ((plannedCalls img.width img.height cfg).take i) := by
  have hrun := run_fail rm img cfg dOk i h hi
  refine ⟨by rw [hrun], by rw [hrun], ?_, ?_⟩
  · rw [hrun]
    show vAdds (HostCall.undoStart :: (_ ++ [HostCall.undoEnd])) = _
    rw [vAdds_cons_undoStart, vAdds_append]
    simp [vAdds_cons_undoEnd, vAdds_nil]
  · rw [hrun]
    show hAdds (HostCall.undoStart :: (_ ++ [HostCall.undoEnd])) = _
    rw [hAdds_cons_undoStart, hAdds_append]
    simp [hAdds_cons_undoEnd, hAdds_nil]

/-- C6 witness: borders-only parameters, failure at the third call. -/
theorem C6_error_path_witness :
    (run_quick_guides RunMode.noninteractive (some ⟨900, 600⟩)
        ⟨1, 1, false, true⟩ true (some 2)).status
        = PDBStatus.executionError ∧
    (run_quick_guides RunMode.noninteractive (some ⟨900, 600⟩)
        ⟨1, 1, false, true⟩ true (some 2)).trace =
      HostCall.undoStart ::
        ((plannedCalls 900 600 ⟨1, 1, false, true⟩).take 2
          ++ [HostCall.undoEnd]) ∧
    vAdds (run_quick_guides RunMode.noninteractive (some ⟨900, 600⟩)
        ⟨1, 1, false, true⟩ true (some 2)).trace
      = vAdds ((plannedCalls 900 600 ⟨1, 1, false, true⟩).take 2) ∧
    hAdds (run_quick_guides RunMode.noninteractive (some ⟨900, 600⟩)
        ⟨1, 1, false, true⟩ true (some 2)).trace
      = hAdds ((plannedCalls 900 600 ⟨1, 1, false, true⟩).take 2) :=
  C6_error_path RunMode.noninteractive ⟨900, 600⟩ ⟨1, 1, false, true⟩ true 2
    (by simp) (by decide)

/-- C7: on every path the trace is either empty (cancel, or no image:
no transaction opened) or opens the undo group first, performs only
guide-adding calls, and closes the group exactly once at the end; the
procedure never returns with the transaction open. -/
theorem C7_undo_discipline (rm : RunMode) (image : Option Image)
    (cfg : Config) (dOk : Bool) (failAt : Option ℕ) :
    (run_quick_guides rm image cfg dOk failAt).trace = [] ∨
    ∃ mid, (run_quick_guides rm image cfg dOk failAt).trace =
        HostCall.undoStart :: (mid ++ [HostCall.undoEnd]) ∧
      ∀ c ∈ mid, (∃ p, c = HostCall.addV p) ∨ ∃ p, c = HostCall.addH p := by
  by_cases hrm : rm = RunMode.interactive ∧ dOk = false
  · obtain ⟨h1, h2⟩ := hrm
    subst h1
    subst h2
    rw [run_cancel]
    exact Or.inl rfl
  · cases image with
    | none =>
      rw [run_no_image _ _ _ _ hrm]
      exact Or.inl rfl
    | some img =>
      cases failAt with
      | none =>
        rw [run_success _ _ _ _ hrm]
        exact Or.inr ⟨plannedCalls img.width img.height cfg, rfl,
          plannedCalls_shape _ _ _⟩
      | some i =>
        by_cases hi : i < (plannedCalls img.width img.height cfg).length
        · rw [run_fail _ _ _ _ _ hrm hi]
          refine Or.inr ⟨(plannedCalls img.width img.height cfg).take i,
            rfl, ?_⟩
          intro c hcmem
          exact plannedCalls_shape _ _ _ c (List.take_subset i _ hcmem)
        · rw [run_fail_late _ _ _ _ _ hrm hi]
          exact Or.inr ⟨plannedCalls img.width img.height cfg, rfl,
            plannedCalls_shape _ _ _⟩

lemma trace_sub (rm : RunMode) (img : Image) (cfg : Config) (dOk : Bool)
    (failAt : Option ℕ) :
    ∀ c ∈ (run_quick_guides rm (some img) cfg dOk failAt).trace,
      c = HostCall.undoStart ∨ c = HostCall.undoEnd ∨
        c ∈ plannedCalls img.width img.height cfg := by
  intro c hc
  by_cases hrm : rm = RunMode.interactive ∧ dOk = false
  · obtain ⟨h1, h2⟩ := hrm
    subst h1
    subst h2
    rw [run_cancel] at hc
    simp at hc
  · cases failAt with
    | none =>
      rw [run_success _ _ _ _ hrm] at hc
      simp at hc
      tauto
    | some i =>
      by_cases hi : i < (plannedCalls img.width img.height cfg).length
      · rw [run_fail _ _ _ _ _ hrm hi] at hc
        simp at hc
        rcases hc with rfl | hc | rfl
        · exact Or.inl rfl
        · exact Or.inr (Or.inr (List.take_subset i _ hc))
        · exact Or.inr (Or.inl rfl)
      · rw [run_fail_late _ _ _ _ _ hrm hi] at hc
        simp at hc
        tauto

lemma planned_vAdds_bounds (W H : ℕ) (cfg : Config) (hW : 0 < W)
    (hWb : W ≤ 2 ^ 31 - 1) (hv1 : 1 ≤ cfg.v_split)
    (hv2 : cfg.v_split ≤ 100) :
    ∀ p ∈ vAdds (plannedCalls W H cfg), 0 ≤ p ∧ p ≤ (W : ℤ) := by
  intro p hp
  have hWZ : (0 : ℤ) ≤ (W : ℤ) := Int.natCast_nonneg W
  rw [vAdds_plannedCalls] at hp
  rcases List.mem_append.mp hp with hp | hp
  rcases List.mem_append.mp hp with hp | hp
  · by_cases hsp : 1 < cfg.v_split
    · rw [splitGuides_eq _ _ hsp] at hp
      obtain ⟨i, hi, rfl⟩ := List.mem_map.mp hp
      have hirange : i < (cfg.v_split - 1).toNat := List.mem_range.mp hi
      have hWb' : (W : ℤ) ≤ 2 ^ 31 := by
        have h3 : W ≤ 2 ^ 31 := le_trans hWb (by norm_num)
        exact_mod_cast h3
      obtain ⟨h1, h2, h3⟩ := guide_pos_sandwich W cfg.v_split i hW hWb'
        (by omega) hv2 (by omega)
      refine ⟨h3, ?_⟩
      have h4 : (W : ℤ) * ((i : ℤ) + 1) ≤ (W : ℤ) * cfg.v_split :=
        mul_le_mul_of_nonneg_left (by omega) hWZ
      have h5 : (W : ℤ) * ((i : ℤ) + 1) / cfg.v_split
          ≤ (W : ℤ) * cfg.v_split / cfg.v_split :=
        Int.ediv_le_ediv (by omega) h4
      have h6 : (W : ℤ) * cfg.v_split / cfg.v_split = (W : ℤ) :=
        Int.mul_ediv_cancel _ (by omega)
      omega
    · have hone : cfg.v_split = 1 := by omega
      rw [hone, splitGuides_one] at hp
      exact absurd hp (List.not_mem_nil p)
  · cases hmc : cfg.make_centre
    · rw [hmc] at hp
      simp at hp
    · rw [hmc] at hp
      simp at hp
      subst hp
      rw [centre_pos_eval W hW hWb]
      omega
  · cases hdb : cfg.draw_borders
    · rw [hdb] at hp
      simp at hp
    · rw [hdb] at hp
      simp at hp
      rcases hp with rfl | rfl
      · exact ⟨le_refl 0, hWZ⟩
      · exact ⟨hWZ, le_refl _⟩

lemma planned_hAdds_bounds (W H : ℕ) (cfg : Config) (hH : 0 < H)
    (hHb : H ≤ 2 ^ 31 - 1) (hh1 : 1 ≤ cfg.h_split)
    (hh2 : cfg.h_split ≤ 100) :
    ∀ p ∈ hAdds (plannedCalls W H cfg), 0 ≤ p ∧ p ≤ (H : ℤ) := by
  intro p hp
  have hHZ : (0 : ℤ) ≤ (H : ℤ) := Int.natCast_nonneg H
  rw [hAdds_plannedCalls] at hp
  rcases List.mem_append.mp hp with hp | hp
  rcases List.mem_append.mp hp with hp | hp
  · by_cases hsp : 1 < cfg.h_split
    · rw [splitGuides_eq _ _ hsp] at hp
      obtain ⟨i, hi, rfl⟩ := List.mem_map.mp hp
      have hirange : i < (cfg.h_split - 1).toNat := List.mem_range.mp hi
      have hHb' : (H : ℤ) ≤ 2 ^ 31 := by
        have h3 : H ≤ 2 ^ 31 := le_trans hHb (by norm_num)
        exact_mod_cast h3
      obtain ⟨h1, h2, h3⟩ := guide_pos_sandwich H cfg.h_split i hH hHb'
        (by omega) hh2 (by omega)
      refine ⟨h3, ?_⟩
      have h4 : (H : ℤ) * ((i : ℤ) + 1) ≤ (H : ℤ) * cfg.h_split :=
        mul_le_mul_of_nonneg_left (by omega) hHZ
      have h5 : (H : ℤ) * ((i : ℤ) + 1) / cfg.h_split
          ≤ (H : ℤ) * cfg.h_split / cfg.h_split :=
        Int.ediv_le_ediv (by omega) h4
      have h6 : (H : ℤ) * cfg.h_split / cfg.h_split = (H : ℤ) :=
        Int.mul_ediv_cancel _ (by omega)
      omega
    · have hone : cfg.h_split = 1 := by omega
      rw [hone, splitGuides_one] at hp
      exact absurd hp (List.not_mem_nil p)
  · cases hmc : cfg.make_centre
    · rw [hmc] at hp
      simp at hp
    · rw [hmc] at hp
      simp at hp
      subst hp
      rw [centre_pos_eval H hH hHb]
      omega
  · cases hdb : cfg.draw_borders
    · rw [hdb] at hp
      simp at hp
    · rw [hdb] at hp
      simp at hp
      rcases hp with rfl | rfl
      · exact ⟨le_refl 0, hHZ⟩
      · exact ⟨hHZ, le_refl _⟩

/-- C8: on every path (success or host failure at any point), every
vertical guide position passed to the host lies in `[0, W]` and every
horizontal one in `[0, H]`, for any host image and host-enforced split
ranges. -/
theorem C8_position_range (rm : RunMode) (img : Image) (cfg : Config)
    (dOk : Bool) (failAt : Option ℕ) (hvalid : img.hostValid)
    (hh1 : 1 ≤ cfg.h_split) (hh2 : cfg.h_split ≤ 100)
    (hv1 : 1 ≤ cfg.v_split) (hv2 : cfg.v_split ≤ 100) :
    (∀ p ∈ vAdds (run_quick_guides rm (some img) cfg dOk failAt).trace,
        0 ≤ p ∧ p ≤ (img.width : ℤ)) ∧
    ∀ p ∈ hAdds (run_quick_guides rm (some img) cfg dOk failAt).trace,
        0 ≤ p ∧ p ≤ (img.height : ℤ) := by
  obtain ⟨hw0, hwb, hh0, hhb⟩ := hvalid
  constructor
  · intro p hp
    have h1 := mem_vAdds.mp hp
    rcases trace_sub rm img cfg dOk failAt _ h1 with h | h | h
    · exact absurd h (by simp)
    · exact absurd h (by simp)
    · exact planned_vAdds_bounds img.width img.height cfg hw0 hwb hv1 hv2 p
        (mem_vAdds.mpr h)
  · intro p hp
    have h1 := mem_hAdds.mp hp
    rcases trace_sub rm img cfg dOk failAt _ h1 with h | h | h
    · exact absurd h (by simp)
    · exact absurd h (by simp)
    · exact planned_hAdds_bounds img.width img.height cfg hh0 hhb hh1 hh2 p
        (mem_hAdds.mpr h)

/-- C8 witness at the 900×600 image with default parameters. -/
theorem C8_position_range_witness :
    (∀ p ∈ vAdds (run_quick_guides RunMode.noninteractive (some ⟨900, 600⟩)
        ⟨3, 3, true, false⟩ true none).trace,
        0 ≤ p ∧ p ≤ ((900 : ℕ) : ℤ)) ∧
    ∀ p ∈ hAdds (run_quick_guides RunMode.noninteractive (some ⟨900, 600⟩)
        ⟨3, 3, true, false⟩ true none).trace,
        0 ≤ p ∧ p ≤ ((600 : ℕ) : ℤ) :=
  C8_position_range RunMode.noninteractive ⟨900, 600⟩ ⟨3, 3, true, false⟩
    true none ⟨by norm_num, by norm_num, by norm_num, by norm_num⟩
    (by norm_num) (by norm_num) (by norm_num) (by norm_num)

/-- C9: the procedure only appends guides (never reads, deduplicates or
removes), so replaying one successful invocation's calls twice against
the host's guide lists appends the same positions twice: the guide count
grows by exactly twice the one-invocation count, each guide duplicated. -/
theorem C9_not_idempotent (rm : RunMode) (img : Image) (cfg : Config)
    (dOk : Bool) (s : List ℤ × List ℤ)
    (h : ¬(rm = RunMode.interactive ∧ dOk = false)) :
    (run_quick_guides rm (some img) cfg dOk none).status
        = PDBStatus.success ∧
    applyCalls (applyCalls s
        (run_quick_guides rm (some img) cfg dOk none).trace)
        (run_quick_guides rm (some img) cfg dOk none).trace =
      (s.1 ++ (vAdds (run_quick_guides rm (some img) cfg dOk none).trace
            ++ vAdds (run_quick_guides rm (some img) cfg dOk none).trace),
       s.2 ++ (hAdds (run_quick_guides rm (some img) cfg dOk none).trace
            ++ hAdds (run_quick_guides rm (some img) cfg dOk none).trace)) ∧
    (applyCalls (applyCalls s
        (run_quick_guides rm (some img) cfg dOk none).trace)
        (run_quick_guides rm (some img) cfg dOk none).trace).1.length
      = s.1.length
        + 2 * (vAdds (run_quick_guides rm (some img) cfg dOk none).trace).length ∧
    (applyCalls (applyCalls s
        (run_quick_guides rm (some img) cfg dOk none).trace)
        (run_quick_guides rm (some img) cfg dOk none).trace).2.length
      = s.2.length
        + 2 * (hAdds (run_quick_guides rm (some img) cfg dOk none).trace).length := by
  refine ⟨by rw [run_success _ _ _ _ h], ?_, ?_, ?_⟩
  · rw [applyCalls_eq, applyCalls_eq]
    simp [List.append_assoc]
  · rw [applyCalls_eq, applyCalls_eq]
    simp [List.length_append]
    omega
  · rw [applyCalls_eq, applyCalls_eq]
    simp [List.length_append]
    omega

/-- C9 witness: borders-only invocation replayed twice from empty guide
lists. -/
theorem C9_not_idempotent_witness :
    (run_quick_guides RunMode.noninteractive (some ⟨800, 400⟩)
        ⟨1, 1, false, true⟩ true none).status = PDBStatus.success ∧
    applyCalls (applyCalls (([], []) : List ℤ × List ℤ)
        (run_quick_guides RunMode.noninteractive (some ⟨800, 400⟩)
          ⟨1, 1, false, true⟩ true none).trace)
        (run_quick_guides RunMode.noninteractive (some ⟨800, 400⟩)
          ⟨1, 1, false, true⟩ true none).trace =
      ((([], []) : List ℤ × List ℤ).1
          ++ (vAdds (run_quick_guides RunMode.noninteractive (some ⟨800, 400⟩)
                ⟨1, 1, false, true⟩ true none).trace
            ++ vAdds (run_quick_guides RunMode.noninteractive (some ⟨800, 400⟩)
                ⟨1, 1, false, true⟩ true none).trace),
       (([], []) : List ℤ × List ℤ).2
          ++ (hAdds (run_quick_guides RunMode.noninteractive (some ⟨800, 400⟩)
                ⟨1, 1, false, true⟩ true none).trace
            ++ hAdds (run_quick_guides RunMode.noninteractive (some ⟨800, 400⟩)
                ⟨1, 1, false, true⟩ true none).trace)) ∧
    (applyCalls (applyCalls (([], []) : List ℤ × List ℤ)
        (run_quick_guides RunMode.noninteractive (some ⟨800, 400⟩)
          ⟨1, 1, false, true⟩ true none).trace)
        (run_quick_guides RunMode.noninteractive (some ⟨800, 400⟩)
          ⟨1, 1, false, true⟩ true none).trace).1.length
      = (([], []) : List ℤ × List ℤ).1.length
        + 2 * (vAdds (run_quick_guides RunMode.noninteractive (some ⟨800, 400⟩)
            ⟨1, 1, false, true⟩ true none).trace).length ∧
    (applyCalls (applyCalls (([], []) : List ℤ × List ℤ)
        (run_quick_guides RunMode.noninteractive (some ⟨800, 400⟩)
          ⟨1, 1, false, true⟩ true none).trace)
        (run_quick_guides RunMode.noninteractive (some ⟨800, 400⟩)
          ⟨1, 1, false, true⟩ true none).trace).2.length
      = (([], []) : List ℤ × List ℤ).2.length
        + 2 * (hAdds (run_quick_guides RunMode.noninteractive (some ⟨800, 400⟩)
            ⟨1, 1, false, true⟩ true none).trace).length :=
  C9_not_idempotent RunMode.noninteractive ⟨800, 400⟩ ⟨1, 1, false, true⟩
    true ([], []) (by simp)

/-- C10: every return site constructs a fresh `GLib.Error()`: the error
value accompanying the status is the empty error on all four paths, and
no diagnostic detail is ever attached. -/
theorem C10_empty_error (rm : RunMode) (image : Option Image) (cfg : Config)
    (dOk : Bool) (failAt : Option ℕ) :
    (run_quick_guides rm image cfg dOk failAt).error = GError.empty := by
  by_cases hrm : rm = RunMode.interactive ∧ dOk = false
  · obtain ⟨h1, h2⟩ := hrm
    subst h1
    subst h2
    rw [run_cancel]
  · cases image with
    | none => rw [run_no_image _ _ _ _ hrm]
    | some img =>
      cases failAt with
      | none => rw [run_success _ _ _ _ hrm]
      | some i =>
        by_cases hi : i < (plannedCalls img.width img.height cfg).length
        · rw [run_fail _ _ _ _ _ hrm hi]
        · rw [run_fail_late _ _ _ _ _ hrm hi]
